import Mathlib

/-!
# TimeCrate — formal verification of the specification against the code

Shallow embedding of the TimeCrate repository:
* the threshold splitter (Shamir secret sharing) used by `secrets.share` /
  `secrets.combine` in `src/backend/server.js`,
* the cipher plumbing `encryptData` / `decryptData` (AES-256-CBC with IV
  prefix) in `src/backend/server.js`,
* the `/upload` distribution / quorum / response logic,
* the `/api/reconstruct` share-validation and error pipeline,
* the `TimeCrate.sol` contract state machine (`createCrate`,
  `isReleaseReady`, `markAsReleased`, ERC-721 transfer).
-/

namespace TimeCrate

/-! ## Threshold splitter (Shamir secret sharing)

Modelled from the spec: the implementation of `secrets.share` and
`secrets.combine` is the external `secrets.js-grempe` package, not part of the
repository.  Per the spec (§4.2), `split` constructs, independently per byte of
the secret, a random polynomial of degree `k-1` whose constant term is that
secret byte, and evaluates it at `n` distinct non-zero x-coordinates; `combine`
performs Lagrange interpolation at `x = 0` over the finite field for each byte
position independently.  The development is generic over the finite field `F`. -/

variable {F : Type} [Field F]

/-- Evaluate a polynomial given by its coefficient list (constant term first)
at `x`, by Horner's rule. -/
def evalPoly (coeffs : List F) (x : F) : F :=
  match coeffs with
  | [] => 0
  | c :: cs => c + x * evalPoly cs x

/-- One share: the x-coordinate together with the per-byte polynomial
evaluations at that coordinate. -/
structure Share (F : Type) where
  x : F
  ys : List F
  deriving Repr, DecidableEq

/-- The per-byte evaluations making up the share at x-coordinate `x`:
byte `i` of the secret contributes the value of the polynomial whose constant
term is that byte and whose higher coefficients are `rands[i]`. -/
def shareValuesAt (secret : List F) (rands : List (List F)) (x : F) : List F :=
  List.zipWith (fun s r => evalPoly (s :: r) x) secret rands

/-- `split secret rands xs`: one share per x-coordinate in `xs`
(`secrets.share` with `n = xs.length`; the randomness `rands` — one
coefficient list per secret byte — is an explicit argument). -/
def split (secret : List F) (rands : List (List F)) (xs : List F) : List (Share F) :=
  xs.map fun x => ⟨x, shareValuesAt secret rands x⟩

/-- Lagrange basis weight at interpolation point `0` for node `a`, the other
two nodes being `b` and `c`. -/
def lagWeight (a b c : F) : F :=
  (b * c) / ((b - a) * (c - a))

/-- Combine three shares by Lagrange interpolation at `x = 0`, independently
per byte position (`secrets.combine` on three shares). -/
def combine3 (s1 s2 s3 : Share F) : List F :=
  List.zipWith (fun y1 y23 =>
      y1 * lagWeight s1.x s2.x s3.x +
      y23.1 * lagWeight s2.x s1.x s3.x +
      y23.2 * lagWeight s3.x s1.x s2.x)
    s1.ys (List.zip s2.ys s3.ys)

/-- Core per-byte identity: a degree-two polynomial interpolated at three
distinct nodes recovers its constant term. -/
theorem lagrange3_eval_zero (s r1 r2 a b c : F)
    (hab : a ≠ b) (hac : a ≠ c) (hbc : b ≠ c) :
    evalPoly [s, r1, r2] a * lagWeight a b c +
    evalPoly [s, r1, r2] b * lagWeight b a c +
    evalPoly [s, r1, r2] c * lagWeight c a b = s := by
  have hba : b - a ≠ 0 := sub_ne_zero.mpr (Ne.symm hab)
  have hca : c - a ≠ 0 := sub_ne_zero.mpr (Ne.symm hac)
  have hcb : c - b ≠ 0 := sub_ne_zero.mpr (Ne.symm hbc)
  have hab' : a - b ≠ 0 := sub_ne_zero.mpr hab
  have hac' : a - c ≠ 0 := sub_ne_zero.mpr hac
  have hbc' : b - c ≠ 0 := sub_ne_zero.mpr hbc
  simp only [evalPoly, lagWeight]
  field_simp
  ring

/-- List-level combination: combining the shares generated at three pairwise
distinct x-coordinates recovers every byte of the secret. -/
theorem combine3_shareValuesAt (secret : List F) (rands : List (List F))
    (a b c : F) (hab : a ≠ b) (hac : a ≠ c) (hbc : b ≠ c)
    (hlen : rands.length = secret.length)
    (hr : ∀ r ∈ rands, r.length = 2) :
    combine3 ⟨a, shareValuesAt secret rands a⟩
      ⟨b, shareValuesAt secret rands b⟩
      ⟨c, shareValuesAt secret rands c⟩ = secret := by
  induction secret generalizing rands with
  | nil => simp [combine3, shareValuesAt]
  | cons s sec ih =>
    match rands, hlen with
    | r :: rs, hlen =>
      have hr2 : r.length = 2 := hr r (by simp)
      match r, hr2 with
      | [r1, r2], _ =>
        simp only [combine3, shareValuesAt, List.zipWith_cons_cons, List.zip_cons_cons,
          List.cons.injEq]
        constructor
        · exact lagrange3_eval_zero s r1 r2 a b c hab hac hbc
        · have := ih rs (by simpa using hlen) (fun q hq => hr q (by simp [hq]))
          simpa [combine3, shareValuesAt] using this

/-- C1: combining any three distinct shares produced by `split` — whichever
three of the shares are chosen and in whatever order they are supplied —
returns the original secret. -/
theorem secrets_combine_of_split (secret : List F) (rands : List (List F))
    (xs : List F) (hx : xs.Nodup)
    (hlen : rands.length = secret.length)
    (hr : ∀ r ∈ rands, r.length = 2)
    (i j l : Fin (split secret rands xs).length)
    (hij : i ≠ j) (hil : i ≠ l) (hjl : j ≠ l) :
    combine3 ((split secret rands xs).get i) ((split secret rands xs).get j)
      ((split secret rands xs).get l) = secret := by
  have hlenxs : (split secret rands xs).length = xs.length := by
    simp [split]
  have hget : ∀ m : Fin (split secret rands xs).length,
      (split secret rands xs).get m =
        ⟨xs.get (Fin.cast hlenxs m), shareValuesAt secret rands (xs.get (Fin.cast hlenxs m))⟩ := by
    intro m
    simp [split, List.get_map]
  have hinj : ∀ m m' : Fin (split secret rands xs).length,
      xs.get (Fin.cast hlenxs m) = xs.get (Fin.cast hlenxs m') → m = m' := by
    intro m m' h
    have h2 := (List.Nodup.get_inj_iff hx).mp h
    exact Fin.ext (by simpa using congrArg Fin.val h2)
  rw [hget i, hget j, hget l]
  exact combine3_shareValuesAt secret rands _ _ _
    (fun h => hij (hinj i j h)) (fun h => hil (hinj i l h)) (fun h => hjl (hinj j l h))
    hlen hr

instance : Fact (Nat.Prime 11) := ⟨by norm_num⟩

/-- C1 witness: a two-byte secret over `ZMod 11`, split into 5 shares with
threshold 3; shares number 5, 1 and 3 (in that scrambled order) recombine to
the secret. -/
theorem secrets_combine_of_split_witness :
    combine3 ((split (F := ZMod 11) [3, 7] [[1, 2], [4, 5]] [1, 2, 3, 4, 5]).get ⟨4, by decide⟩)
      ((split (F := ZMod 11) [3, 7] [[1, 2], [4, 5]] [1, 2, 3, 4, 5]).get ⟨0, by decide⟩)
      ((split (F := ZMod 11) [3, 7] [[1, 2], [4, 5]] [1, 2, 3, 4, 5]).get ⟨2, by decide⟩)
      = [3, 7] :=
  secrets_combine_of_split ([3, 7] : List (ZMod 11)) [[1, 2], [4, 5]] [1, 2, 3, 4, 5]
    (by decide) (by decide) (by decide) _ _ _ (by decide) (by decide) (by decide)

/-! ## Upload flow (`app.post('/upload')`, `src/backend/server.js` 111–179)

The share-distribution phase is embedded as a function of the delivery
results: `results` has one entry per dispatched share, `true` when the
`axios.post` to that keeper succeeded and `false` when the `.catch` handler
turned the failure into `null`. -/

/-- The configured keeper nodes (`KEEPER_NODES`, `server.js` 25–31). -/
def KEEPER_NODES : List String :=
  ["http://localhost:4001", "http://localhost:4002", "http://localhost:4003",
   "http://localhost:4004", "http://localhost:4005"]

/-- `results.filter(r => r !== null).length` (`server.js` 141). -/
def successfulDistributions (results : List Bool) : Nat :=
  (results.filter id).length

/-- The loop of `server.js` 157–162: push `KEEPER_NODES[i]` exactly when
`results[i] !== null`. -/
def activeKeeperUrls : List String → List Bool → List String
  | _, [] => []
  | [], _ :: _ => []
  | k :: ks, r :: rs =>
    if r then k :: activeKeeperUrls ks rs else activeKeeperUrls ks rs

/-- The shares that keepers actually hold after distribution: share `i` is
held exactly when delivery `i` succeeded (`server.js` 127–137). -/
def heldShares : List String → List Bool → List String
  | _, [] => []
  | [], _ :: _ => []
  | s :: ss, r :: rs =>
    if r then s :: heldShares ss rs else heldShares ss rs

/-- The JSON body of the 500 quorum-failure response (`server.js` 148–153). -/
structure QuorumError where
  error : String
  successfulDistributions : Nat
  required : Nat
  totalKeepers : Nat
  deriving Repr, DecidableEq

/-- The JSON body of the 200 success response (`server.js` 167–172). -/
structure UploadResponse where
  ipfsCid : String
  sharesDistributed : Nat
  keeperUrls : List String
  manualShares : List String
  deriving Repr, DecidableEq

/-- The distribution/quorum/response phase of the upload handler
(`server.js` 140–172): count successes, fail below 3, otherwise answer with
the active keeper urls and `manualShares: [shares[1], shares[2]]`. -/
def uploadDistributionOutcome (keeperNodes : List String) (shares : List String)
    (results : List Bool) (ipfsCid : String) : Except QuorumError UploadResponse :=
  let n := successfulDistributions results
  if n < 3 then
    .error ⟨"Failed to distribute enough shares to keeper nodes. Need at least 3 keepers online.",
      n, 3, keeperNodes.length⟩
  else
    .ok { ipfsCid := ipfsCid
          sharesDistributed := n
          keeperUrls := activeKeeperUrls keeperNodes results
          manualShares := [shares.getD 1 "", shares.getD 2 ""] }

/-- C3: the upload distribution phase succeeds iff at least 3 of the share
deliveries succeeded; with 2 or fewer successes it returns the
insufficient-keeper-quorum error (reporting successes, the requirement 3 and
the keeper total) instead of a usable crate response. -/
theorem upload_quorum_boundary (keeperNodes shares : List String)
    (results : List Bool) (ipfsCid : String) :
    ((uploadDistributionOutcome keeperNodes shares results ipfsCid).isOk = true ↔
      3 ≤ successfulDistributions results) ∧
    (successfulDistributions results < 3 →
      uploadDistributionOutcome keeperNodes shares results ipfsCid =
        .error ⟨"Failed to distribute enough shares to keeper nodes. Need at least 3 keepers online.",
          successfulDistributions results, 3, keeperNodes.length⟩) := by
  constructor
  · unfold uploadDistributionOutcome
    by_cases h : successfulDistributions results < 3
    · simp only [h, if_true, Except.isOk, Except.toBool]
      constructor
      · intro hc; cases hc
      · omega
    · simp only [h, if_false, Except.isOk, Except.toBool]
      constructor
      · intro _; omega
      · intro _; trivial
  · intro h
    simp [uploadDistributionOutcome, h]

/-- C3 witness: with exactly 3 of 5 deliveries succeeding the outcome is a
success, and with exactly 2 it is the quorum error. -/
theorem upload_quorum_boundary_witness :
    ((uploadDistributionOutcome KEEPER_NODES ["s1", "s2", "s3", "s4", "s5"]
        [true, false, true, false, true] "QmCid").isOk = true) ∧
    (uploadDistributionOutcome KEEPER_NODES ["s1", "s2", "s3", "s4", "s5"]
        [true, false, true, false, false] "QmCid" =
      .error ⟨"Failed to distribute enough shares to keeper nodes. Need at least 3 keepers online.",
        2, 3, 5⟩) :=
  ⟨(upload_quorum_boundary KEEPER_NODES ["s1", "s2", "s3", "s4", "s5"]
      [true, false, true, false, true] "QmCid").1.mpr (by decide),
   by
    have h := (upload_quorum_boundary KEEPER_NODES ["s1", "s2", "s3", "s4", "s5"]
      [true, false, true, false, false] "QmCid").2 (by decide)
    simpa using h⟩

/-- Every url in the active list is a configured keeper url. -/
theorem mem_of_mem_activeKeeperUrls :
    ∀ (ks : List String) (rs : List Bool) (u : String),
      u ∈ activeKeeperUrls ks rs → u ∈ ks := by
  intro ks
  induction ks with
  | nil => intro rs u h; cases rs <;> simp [activeKeeperUrls] at h
  | cons k ks ih =>
    intro rs u h
    cases rs with
    | nil => simp [activeKeeperUrls] at h
    | cons r rs =>
      cases r
      · simp only [activeKeeperUrls, if_false, Bool.false_eq_true] at h
        exact List.mem_cons_of_mem _ (ih rs u h)
      · simp only [activeKeeperUrls, if_true] at h
        rcases List.mem_cons.mp h with h | h
        · simp [h]
        · exact List.mem_cons_of_mem _ (ih rs u h)

/-- The active list has exactly one entry per successful delivery. -/
theorem length_activeKeeperUrls :
    ∀ (ks : List String) (rs : List Bool), rs.length = ks.length →
      (activeKeeperUrls ks rs).length = successfulDistributions rs := by
  intro ks
  induction ks with
  | nil =>
    intro rs h
    cases rs with
    | nil => simp [activeKeeperUrls, successfulDistributions]
    | cons r rs => simp at h
  | cons k ks ih =>
    intro rs h
    cases rs with
    | nil => simp [activeKeeperUrls, successfulDistributions]
    | cons r rs =>
      have h' : rs.length = ks.length := by simpa using h
      have h2 := ih rs h'
      cases r
      · simpa [activeKeeperUrls, successfulDistributions, List.filter_cons] using h2
      · simpa [activeKeeperUrls, successfulDistributions, List.filter_cons] using h2

/-- Keeper url `i` is in the active list iff delivery `i` succeeded
(for a duplicate-free keeper configuration). -/
theorem get_mem_activeKeeperUrls_iff :
    ∀ (ks : List String) (rs : List Bool), ks.Nodup →
      ∀ (i : Nat) (hik : i < ks.length) (hir : i < rs.length),
        (ks.get ⟨i, hik⟩ ∈ activeKeeperUrls ks rs ↔ rs.get ⟨i, hir⟩ = true) := by
  intro ks
  induction ks with
  | nil => intro rs _ i hik; simp at hik
  | cons k ks ih =>
    intro rs hnd i hik hir
    cases rs with
    | nil => simp at hir
    | cons r rs =>
      have hk : k ∉ ks := (List.nodup_cons.mp hnd).1
      have hnd' : ks.Nodup := (List.nodup_cons.mp hnd).2
      cases i with
      | zero =>
        cases r
        · simp only [activeKeeperUrls, if_false, Bool.false_eq_true, List.get]
          constructor
          · intro hmem
            exact absurd (mem_of_mem_activeKeeperUrls ks rs k hmem) hk
          · intro hfalse; cases hfalse
        · simp [activeKeeperUrls]
      | succ i =>
        have hik' : i < ks.length := by simpa using hik
        have hir' : i < rs.length := by simpa using hir
        have hget : ks.get ⟨i, hik'⟩ ∈ ks := List.get_mem ks i hik'
        cases r
        · simp only [activeKeeperUrls, if_false, Bool.false_eq_true, List.get]
          exact ih rs hnd' i hik' hir'
        · simp only [activeKeeperUrls, if_true, List.get, List.mem_cons]
          constructor
          · intro hmem
            rcases hmem with h | h
            · exact absurd (h ▸ hget) hk
            · exact (ih rs hnd' i hik' hir').mp h
          · intro htrue
            exact Or.inr ((ih rs hnd' i hik' hir').mpr htrue)

/-- C9: on a successful upload, the returned `keeperUrls` list has exactly one
entry per successful delivery (length 4 when 4 of 5 keepers were reachable),
and keeper url `i` appears in it iff delivery `i` succeeded — failed endpoints
never appear. -/
theorem upload_response_keeper_urls (keeperNodes shares : List String)
    (results : List Bool) (ipfsCid : String) (resp : UploadResponse)
    (hnd : keeperNodes.Nodup) (hlen : results.length = keeperNodes.length)
    (hok : uploadDistributionOutcome keeperNodes shares results ipfsCid = .ok resp)
    (i : Nat) (hik : i < keeperNodes.length) (hir : i < results.length) :
    resp.keeperUrls.length = successfulDistributions results ∧
    (keeperNodes.get ⟨i, hik⟩ ∈ resp.keeperUrls ↔ results.get ⟨i, hir⟩ = true) := by
  have hurls : resp.keeperUrls = activeKeeperUrls keeperNodes results := by
    unfold uploadDistributionOutcome at hok
    by_cases h : successfulDistributions results < 3
    · simp [h] at hok
    · simp only [h, if_false] at hok
      cases hok
      rfl
  rw [hurls]
  exact ⟨length_activeKeeperUrls keeperNodes results hlen,
    get_mem_activeKeeperUrls_iff keeperNodes results hnd i hik hir⟩

/-- C9 witness: keeper 3 of 5 fails, the other four succeed; the returned url
list has length 4 and contains keeper url 4 (index 3), whose delivery
succeeded. -/
theorem upload_response_keeper_urls_witness :
    (UploadResponse.keeperUrls ⟨"QmCid", 4,
        ["http://localhost:4001", "http://localhost:4002",
         "http://localhost:4004", "http://localhost:4005"], ["s2", "s3"]⟩).length =
      successfulDistributions [true, true, false, true, true] ∧
    (KEEPER_NODES.get ⟨3, by decide⟩ ∈
        UploadResponse.keeperUrls ⟨"QmCid", 4,
          ["http://localhost:4001", "http://localhost:4002",
           "http://localhost:4004", "http://localhost:4005"], ["s2", "s3"]⟩ ↔
      ([true, true, false, true, true] : List Bool).get ⟨3, by decide⟩ = true) :=
  upload_response_keeper_urls KEEPER_NODES ["s1", "s2", "s3", "s4", "s5"]
    [true, true, false, true, true] "QmCid" _
    (by decide) (by decide) rfl 3 (by decide) (by decide)

/-- C5 counterexample: with all five deliveries succeeding, the upload
response's backup shares are `[shares[1], shares[2]]` — only two of them, not
`N − 1 = 4` — and share `"sB"` (= `shares[1]`) is simultaneously held by
keeper 2, so a backup share is one that a keeper also holds. -/
theorem manual_shares_counterexample :
    (uploadDistributionOutcome KEEPER_NODES ["sA", "sB", "sC", "sD", "sE"]
        [true, true, true, true, true] "QmCid" =
      .ok ⟨"QmCid", 5, KEEPER_NODES, ["sB", "sC"]⟩) ∧
    "sB" ∈ heldShares ["sA", "sB", "sC", "sD", "sE"] [true, true, true, true, true] ∧
    (["sB", "sC"] : List String).length ≠ 4 := by
  refine ⟨rfl, ?_, by decide⟩
  simp [heldShares]

/-- C5 amended: on a successful upload the backup (`manualShares`) list is
exactly the second and third produced shares, `[shares[1], shares[2]]` — two
shares that are also dispatched to keepers 2 and 3. -/
theorem upload_manual_shares (keeperNodes shares : List String)
    (results : List Bool) (ipfsCid : String) (resp : UploadResponse)
    (hok : uploadDistributionOutcome keeperNodes shares results ipfsCid = .ok resp) :
    resp.manualShares = [shares.getD 1 "", shares.getD 2 ""] := by
  unfold uploadDistributionOutcome at hok
  by_cases h : successfulDistributions results < 3
  · simp [h] at hok
  · simp only [h, if_false] at hok
    cases hok
    rfl

/-- C5 amended witness: the concrete all-successful run returns backup shares
`["sB", "sC"]`. -/
theorem upload_manual_shares_witness :
    (UploadResponse.manualShares ⟨"QmCid", 5, KEEPER_NODES, ["sB", "sC"]⟩) =
      [(["sA", "sB", "sC", "sD", "sE"] : List String).getD 1 "",
       (["sA", "sB", "sC", "sD", "sE"] : List String).getD 2 ""] :=
  upload_manual_shares KEEPER_NODES ["sA", "sB", "sC", "sD", "sE"]
    [true, true, true, true, true] "QmCid" _ rfl

/-! ## Logging of key and share material

Embedding of the `console.log` calls that carry key or share material.
A line is tagged by what it exposes: `keyLine` lines carry (part of) the
encryption key, `shareLine` lines carry (part of) a share. -/

/-- A log line carrying secret material. -/
inductive LogLine where
  | keyLine (payload : String)
  | shareLine (payload : String)
  deriving Repr, DecidableEq

/-- The key/share log lines of the upload handler: the masked key prefix of
`server.js` 87 followed by the five FULL share dumps of `server.js` 118–122. -/
def uploadLog (encryptionKey : String) (shares : List String) : List LogLine :=
  LogLine.keyLine (encryptionKey.take 16 ++ "...") :: shares.map LogLine.shareLine

/-- The key/share log lines of the reconstruct handler: the three 32-character
share prefixes of `server.js` 205–207 and the masked reconstructed-key prefix
of `server.js` 214. -/
def reconstructLog (validShares : List String) (reconstructedKey : String) : List LogLine :=
  (validShares.take 3).map (fun s => LogLine.shareLine (s.take 32 ++ "..."))
    ++ [LogLine.keyLine (reconstructedKey.take 16 ++ "...")]

/-- The key payloads appearing in a log. -/
def keyPayloads (log : List LogLine) : List String :=
  log.filterMap fun l => match l with
    | .keyLine p => some p
    | .shareLine _ => none

/-- The share payloads appearing in a log. -/
def sharePayloads (log : List LogLine) : List String :=
  log.filterMap fun l => match l with
    | .keyLine _ => none
    | .shareLine p => some p

/-- C6 counterexample: in a concrete upload run, the complete share
`"8011af5f73a4..."` — a full member of the share list, far longer than any
masked prefix — appears verbatim as a logged share payload. -/
theorem upload_log_counterexample :
    "8011af5f73a49f2db1c6a8e94272e3cd00112233445566778899aabbccddeeff" ∈
      sharePayloads (uploadLog
        "6a0f28e3b9d47c15f2a8b36e91d05c74e8f1a2b3c4d5e6f70123456789abcdef"
        ["8011af5f73a49f2db1c6a8e94272e3cd00112233445566778899aabbccddeeff",
         "802ff1", "803aa2", "804bb3", "805cc4"]) ∧
    "8011af5f73a49f2db1c6a8e94272e3cd00112233445566778899aabbccddeeff" ∈
      (["8011af5f73a49f2db1c6a8e94272e3cd00112233445566778899aabbccddeeff",
        "802ff1", "803aa2", "804bb3", "805cc4"] : List String) := by
  constructor
  · simp [sharePayloads, uploadLog]
  · simp

/-- In a run of share lines there are no key payloads. -/
theorem keyPayloads_map_shareLine (g : String → String) :
    ∀ l : List String, keyPayloads (l.map fun s => LogLine.shareLine (g s)) = [] := by
  intro l
  induction l with
  | nil => rfl
  | cons s l ih => simpa [keyPayloads, List.filterMap_cons] using ih

/-- The share payloads of a run of share lines are exactly the carried
strings. -/
theorem sharePayloads_map_shareLine (g : String → String) :
    ∀ l : List String, sharePayloads (l.map fun s => LogLine.shareLine (g s)) = l.map g := by
  intro l
  induction l with
  | nil => rfl
  | cons s l ih => simpa [sharePayloads, List.filterMap_cons] using ih

/-- C6 amended: the encryption key is only ever logged as its first 16
characters (upload and reconstruct alike), and the reconstruct flow logs only
32-character share prefixes — but the upload flow logs every one of the
produced shares in full. -/
theorem log_masking (encryptionKey reconstructedKey : String)
    (shares validShares : List String) :
    keyPayloads (uploadLog encryptionKey shares) = [encryptionKey.take 16 ++ "..."] ∧
    sharePayloads (uploadLog encryptionKey shares) = shares ∧
    keyPayloads (reconstructLog validShares reconstructedKey) =
      [reconstructedKey.take 16 ++ "..."] ∧
    sharePayloads (reconstructLog validShares reconstructedKey) =
      (validShares.take 3).map (fun s => s.take 32 ++ "...") := by
  have hmapid : shares.map (fun s => LogLine.shareLine s) =
      shares.map (fun s => LogLine.shareLine (id s)) := rfl
  refine ⟨?_, ?_, ?_, ?_⟩
  · have := keyPayloads_map_shareLine id shares
    simp only [keyPayloads, uploadLog, List.filterMap_cons] at this ⊢
    simpa [hmapid] using this
  · have := sharePayloads_map_shareLine id shares
    simp only [sharePayloads, uploadLog, List.filterMap_cons] at this ⊢
    simpa [hmapid] using this
  · have h1 := keyPayloads_map_shareLine (fun s => s.take 32 ++ "...") (validShares.take 3)
    simp only [keyPayloads] at h1
    simp only [List.map_take] at h1
    simp only [keyPayloads, reconstructLog, List.filterMap_append, List.map_take, h1]
    simp [List.filterMap_cons]
  · have h1 := sharePayloads_map_shareLine (fun s => s.take 32 ++ "...") (validShares.take 3)
    simp only [sharePayloads] at h1
    simp only [List.map_take] at h1
    simp only [sharePayloads, reconstructLog, List.filterMap_append, List.map_take, h1]
    simp [List.filterMap_cons]

/-! ## Reconstruct flow (`app.post('/api/reconstruct')`, `server.js` 183–264)

The handler is embedded as a function of the supplied shares and of the
outcomes of its three effectful steps: `secrets.combine` (`combineF`), the
IPFS fetch (`fetchF`, an `Except` value since the fetch takes no data from the
combine step), and `decryptData` (`decryptF`, fed the reconstructed key and
the fetched bytes).  The returned trace records which steps were attempted. -/

/-- JavaScript `s.trim()` modelled on the character list: strip whitespace
from both ends of the string. -/
def jsTrim (s : String) : List Char :=
  ((s.toList.dropWhile (·.isWhitespace)).reverse.dropWhile (·.isWhitespace)).reverse

/-- `s && s.trim().length > 0` (`server.js` 199): non-empty and not
whitespace-only. -/
def isValidShare (s : String) : Bool :=
  s != "" && (jsTrim s).length != 0

/-- The five possible handler outcomes, each carrying the `error`/`details`
strings of the corresponding JSON response. -/
inductive ReconstructOutcome where
  | insufficientShares (error : String)
  | reconstructionError (details : String)
  | fetchError (details : String)
  | decryptionError (details : String)
  | success (file : List Nat)
  deriving Repr, DecidableEq

/-- An effectful step of the reconstruct handler. -/
inductive RStep where
  | combineStep
  | fetchStep
  | decryptStep
  deriving Repr, DecidableEq

/-- Whether an outcome is one of the two 400 insufficient-shares rejections
(`server.js` 186–188 and 201–203). -/
def ReconstructOutcome.isInsufficientShares : ReconstructOutcome → Bool
  | .insufficientShares _ => true
  | _ => false

/-- The reconstruct handler (`server.js` 184–254): guard on the raw share
count, filter out empty shares, guard on the valid count, then combine the
first three valid shares, fetch, and decrypt, stopping at the first failure. -/
def reconstructFlow (shares : List String)
    (combineF : List String → Except String String)
    (fetchF : Except String (List Nat))
    (decryptF : List Nat → String → Except String (List Nat)) :
    ReconstructOutcome × List RStep :=
  if shares.length < 3 then
    (.insufficientShares "At least 3 shares are required", [])
  else
    let validShares := shares.filter isValidShare
    if validShares.length < 3 then
      (.insufficientShares "At least 3 valid shares are required", [])
    else
      match combineF (validShares.take 3) with
      | .error d => (.reconstructionError d, [.combineStep])
      | .ok reconstructedKey =>
        match fetchF with
        | .error d => (.fetchError d, [.combineStep, .fetchStep])
        | .ok encryptedData =>
          match decryptF encryptedData reconstructedKey with
          | .error d => (.decryptionError d, [.combineStep, .fetchStep, .decryptStep])
          | .ok decryptedData =>
            (.success decryptedData, [.combineStep, .fetchStep, .decryptStep])

/-- C7: the reconstruct handler rejects with an insufficient-shares error
whenever fewer than 3 valid (non-empty, non-whitespace) shares are supplied,
and with at least 3 valid shares the run is equivalent to a run on just the
first 3 valid shares — the extras are ignored and exactly
`validShares.slice(0,3)` is handed to `secrets.combine`. -/
theorem reconstruct_share_validation (shares : List String)
    (combineF : List String → Except String String)
    (fetchF : Except String (List Nat))
    (decryptF : List Nat → String → Except String (List Nat)) :
    ((shares.filter isValidShare).length < 3 →
      (reconstructFlow shares combineF fetchF decryptF).1.isInsufficientShares = true) ∧
    (3 ≤ (shares.filter isValidShare).length →
      reconstructFlow shares combineF fetchF decryptF =
        reconstructFlow ((shares.filter isValidShare).take 3) combineF fetchF decryptF) := by
  constructor
  · intro hlt
    unfold reconstructFlow
    by_cases h : shares.length < 3
    · simp [h, ReconstructOutcome.isInsufficientShares]
    · simp [h, hlt, ReconstructOutcome.isInsufficientShares]
  · intro hge
    have hsub : 3 ≤ shares.length :=
      le_trans hge (List.length_filter_le _ _)
    have htake : ((shares.filter isValidShare).take 3).filter isValidShare =
        (shares.filter isValidShare).take 3 := by
      apply List.filter_eq_self.mpr
      intro a ha
      exact List.of_mem_filter (List.mem_of_mem_take ha)
    have hlen3 : ((shares.filter isValidShare).take 3).length = 3 := by
      simp [List.length_take]
      omega
    unfold reconstructFlow
    simp only [Nat.not_lt.mpr hsub, if_false, Nat.not_lt.mpr hge, htake, hlen3]
    simp only [show ¬ shares.length < 3 by omega, if_false,
      show ¬ (shares.filter isValidShare).length < 3 by omega, if_false,
      show ¬ (3 : Nat) < 3 by omega, if_false, htake]
    simp [List.take_take]

/-- C7 witness: five supplied shares of which four are valid (one is
whitespace-only): the run equals the run on the first three valid shares; and
a two-valid-share request is rejected as insufficient. -/
theorem reconstruct_share_validation_witness :
    (reconstructFlow ["  ", "a", "b", "c", "d"]
        (fun _ => .ok "k") (.ok [1, 2]) (fun _ _ => .ok [9]) =
      reconstructFlow ((["  ", "a", "b", "c", "d"].filter isValidShare).take 3)
        (fun _ => .ok "k") (.ok [1, 2]) (fun _ _ => .ok [9])) ∧
    ((reconstructFlow ["a", "b", "  "]
        (fun _ => .ok "k") (.ok [1, 2]) (fun _ _ => .ok [9])).1.isInsufficientShares = true) :=
  ⟨(reconstruct_share_validation ["  ", "a", "b", "c", "d"]
      (fun _ => .ok "k") (.ok [1, 2]) (fun _ _ => .ok [9])).2 (by decide),
   (reconstruct_share_validation ["a", "b", "  "]
      (fun _ => .ok "k") (.ok [1, 2]) (fun _ _ => .ok [9])).1 (by decide)⟩

/-- C8: in the unlock flow (with enough valid shares), (1) if share
combination fails the run ends with a reconstruction error and neither the
content fetch nor the decryption is ever attempted; (2) if combination
succeeds and the fetch fails the run ends with a fetch error, with no
decryption attempted; (3) if both succeed and decryption fails the run ends
with a decryption error; and the three error outcomes are pairwise distinct
whatever detail strings they carry. -/
theorem reconstruct_error_pipeline (shares : List String)
    (combineF : List String → Except String String)
    (fetchF : Except String (List Nat))
    (decryptF : List Nat → String → Except String (List Nat))
    (hvalid : 3 ≤ (shares.filter isValidShare).length) :
    (∀ d, combineF ((shares.filter isValidShare).take 3) = .error d →
      reconstructFlow shares combineF fetchF decryptF =
        (.reconstructionError d, [.combineStep]) ∧
      RStep.fetchStep ∉ (reconstructFlow shares combineF fetchF decryptF).2 ∧
      RStep.decryptStep ∉ (reconstructFlow shares combineF fetchF decryptF).2) ∧
    (∀ k d, combineF ((shares.filter isValidShare).take 3) = .ok k →
      fetchF = .error d →
      reconstructFlow shares combineF fetchF decryptF =
        (.fetchError d, [.combineStep, .fetchStep]) ∧
      RStep.decryptStep ∉ (reconstructFlow shares combineF fetchF decryptF).2) ∧
    (∀ k b d, combineF ((shares.filter isValidShare).take 3) = .ok k →
      fetchF = .ok b → decryptF b k = .error d →
      reconstructFlow shares combineF fetchF decryptF =
        (.decryptionError d, [.combineStep, .fetchStep, .decryptStep])) ∧
    (∀ d d', ReconstructOutcome.reconstructionError d ≠ .fetchError d' ∧
      ReconstructOutcome.reconstructionError d ≠ .decryptionError d' ∧
      ReconstructOutcome.fetchError d ≠ .decryptionError d') := by
  have hsub : 3 ≤ shares.length :=
    le_trans hvalid (List.length_filter_le _ _)
  refine ⟨?_, ?_, ?_, ?_⟩
  · intro d hd
    have h : reconstructFlow shares combineF fetchF decryptF =
        (.reconstructionError d, [.combineStep]) := by
      unfold reconstructFlow
      simp only [Nat.not_lt.mpr hsub, if_false, Nat.not_lt.mpr hvalid, if_false, hd]
    exact ⟨h, by rw [h]; simp, by rw [h]; simp⟩
  · intro k d hk hf
    have h : reconstructFlow shares combineF fetchF decryptF =
        (.fetchError d, [.combineStep, .fetchStep]) := by
      unfold reconstructFlow
      simp only [Nat.not_lt.mpr hsub, if_false, Nat.not_lt.mpr hvalid, if_false, hk, hf]
    exact ⟨h, by rw [h]; simp⟩
  · intro k b d hk hf hd
    unfold reconstructFlow
    simp only [Nat.not_lt.mpr hsub, if_false, Nat.not_lt.mpr hvalid, if_false, hk, hf, hd]
  · intro d d'
    refine ⟨?_, ?_, ?_⟩ <;> intro h <;> cases h

/-- C8 witness: three concrete runs on the same share list — combine failing,
fetch failing after a successful combine, and decryption failing after a
successful fetch — produce the three distinct errors with the corresponding
step traces, and the error outcomes are pairwise distinct. -/
theorem reconstruct_error_pipeline_witness :
    (reconstructFlow ["a", "b", "c"] (fun _ => .error "bad shares")
        (.ok [1]) (fun _ _ => .ok [9]) =
      (.reconstructionError "bad shares", [.combineStep]) ∧
      RStep.fetchStep ∉ (reconstructFlow ["a", "b", "c"] (fun _ => .error "bad shares")
        (.ok [1]) (fun _ _ => .ok [9])).2 ∧
      RStep.decryptStep ∉ (reconstructFlow ["a", "b", "c"] (fun _ => .error "bad shares")
        (.ok [1]) (fun _ _ => .ok [9])).2) ∧
    (reconstructFlow ["a", "b", "c"] (fun _ => .ok "k")
        (.error "gateway down") (fun _ _ => .ok [9]) =
      (.fetchError "gateway down", [.combineStep, .fetchStep]) ∧
      RStep.decryptStep ∉ (reconstructFlow ["a", "b", "c"] (fun _ => .ok "k")
        (.error "gateway down") (fun _ _ => .ok [9])).2) ∧
    (reconstructFlow ["a", "b", "c"] (fun _ => .ok "k")
        (.ok [1]) (fun _ _ => .error "bad pad") =
      (.decryptionError "bad pad", [.combineStep, .fetchStep, .decryptStep])) ∧
    (ReconstructOutcome.reconstructionError "e" ≠ .fetchError "e" ∧
      ReconstructOutcome.reconstructionError "e" ≠ .decryptionError "e" ∧
      ReconstructOutcome.fetchError "e" ≠ .decryptionError "e") :=
  ⟨((reconstruct_error_pipeline ["a", "b", "c"] (fun _ => .error "bad shares")
      (.ok [1]) (fun _ _ => .ok [9]) (by decide)).1 "bad shares" rfl),
   ((reconstruct_error_pipeline ["a", "b", "c"] (fun _ => .ok "k")
      (.error "gateway down") (fun _ _ => .ok [9]) (by decide)).2.1 "k" "gateway down" rfl rfl),
   ((reconstruct_error_pipeline ["a", "b", "c"] (fun _ => .ok "k")
      (.ok [1]) (fun _ _ => .error "bad pad") (by decide)).2.2.1 "k" [1] "bad pad" rfl rfl rfl),
   ((reconstruct_error_pipeline ["a", "b", "c"] (fun _ => .ok "k")
      (.ok [1]) (fun _ _ => .error "bad pad") (by decide)).2.2.2 "e" "e")⟩

/-! ## `TimeCrate.sol` contract state machine

Addresses and token ids are `Nat`; the address `0` plays the role of
`address(0)`, so `owners t = 0` means "token `t` does not exist"
(`_ownerOf(t) == address(0)`).  Solidity mappings are total functions with
zero-initialized defaults.  ERC-721 `_safeMint` / `transferFrom` come from the
external OpenZeppelin dependency and are modelled from the standard:
mint requires a fresh token and nonzero recipient, transfer requires the
declared `from` to be the owner and a nonzero recipient (operator approvals
are omitted — they touch neither `crateInfo` nor the checks below). -/

/-- The `Crate` struct (`TimeCrate.sol` 17–23). -/
structure CrateRec where
  ipfsCid : String
  releaseTime : Nat
  keeperUrls : List String
  released : Bool
  createdAt : Nat
  deriving Repr, DecidableEq

/-- The zero-initialized mapping default. -/
def CrateRec.empty : CrateRec := ⟨"", 0, [], false, 0⟩

/-- Contract storage: the token counter, the ERC-721 owner mapping, the
token-URI mapping and `crateInfo`. -/
structure TCState where
  tokenIdCounter : Nat
  owners : Nat → Nat
  tokenURIs : Nat → String
  crateInfo : Nat → CrateRec

/-- Freshly deployed contract. -/
def TCState.deployed : TCState :=
  ⟨0, fun _ => 0, fun _ => "", fun _ => CrateRec.empty⟩

/-- `createCrate` (`TimeCrate.sol` 52–80): validate inputs, mint token
`_tokenIdCounter.current()`, store the crate with `released: false` and
`createdAt: block.timestamp`, then increment the counter. -/
def createCrate (s : TCState) (nowT : Nat) (recipient : Nat)
    (ipfsCid : String) (releaseTime : Nat) (tokenURI : String)
    (keeperUrls : List String) : Except String (TCState × Nat) :=
  if recipient = 0 then .error "Invalid recipient address"
  else if ¬ nowT < releaseTime then .error "Release time must be in the future"
  else if ipfsCid = "" then .error "IPFS CID cannot be empty"
  else if keeperUrls = [] then .error "Must provide at least one keeper URL"
  else
    let tokenId := s.tokenIdCounter
    if s.owners tokenId ≠ 0 then .error "ERC721: token already minted"
    else
      .ok ({ tokenIdCounter := tokenId + 1
             owners := fun t => if t = tokenId then recipient else s.owners t
             tokenURIs := fun t => if t = tokenId then tokenURI else s.tokenURIs t
             crateInfo := fun t => if t = tokenId then
                 ⟨ipfsCid, releaseTime, keeperUrls, false, nowT⟩
               else s.crateInfo t },
           tokenId)

/-- `isReleaseReady` (`TimeCrate.sol` 87–90): requires the token to exist and
returns `block.timestamp >= crateInfo[_tokenId].releaseTime`. -/
def isReleaseReady (s : TCState) (nowT : Nat) (tokenId : Nat) : Except String Bool :=
  if s.owners tokenId = 0 then .error "Token does not exist"
  else .ok (decide ((s.crateInfo tokenId).releaseTime ≤ nowT))

/-- `markAsReleased` (`TimeCrate.sol` 96–104): requires existence, ownership
by the caller, an elapsed time-lock (via `isReleaseReady`) and a not-yet
released crate; then sets `released = true`. -/
def markAsReleased (s : TCState) (nowT : Nat) (sender tokenId : Nat) :
    Except String TCState :=
  if s.owners tokenId = 0 then .error "Token does not exist"
  else if s.owners tokenId ≠ sender then .error "Only token owner can mark as released"
  else if ¬ (s.crateInfo tokenId).releaseTime ≤ nowT then .error "Release time has not passed"
  else if (s.crateInfo tokenId).released then .error "Already marked as released"
  else
    .ok { s with crateInfo := fun t => if t = tokenId then
            { s.crateInfo tokenId with released := true }
          else s.crateInfo t }

/-- ERC-721 `transferFrom` (modelled from the standard, external OpenZeppelin
code): the declared `from` must own the token, the recipient must be nonzero,
and the caller must be the owner (approvals omitted). -/
def transferFrom (s : TCState) (sender fromAddr toAddr tokenId : Nat) :
    Except String TCState :=
  if s.owners tokenId = 0 then .error "ERC721: invalid token ID"
  else if s.owners tokenId ≠ fromAddr then .error "ERC721: transfer from incorrect owner"
  else if toAddr = 0 then .error "ERC721: transfer to the zero address"
  else if s.owners tokenId ≠ sender then .error "ERC721: caller is not token owner or approved"
  else
    .ok { s with owners := fun t => if t = tokenId then toAddr else s.owners t }

/-- A public mutating operation of the contract. -/
inductive TCOp where
  | create (nowT recipient : Nat) (ipfsCid : String) (releaseTime : Nat)
      (tokenURI : String) (keeperUrls : List String)
  | release (nowT sender tokenId : Nat)
  | transfer (sender fromAddr toAddr tokenId : Nat)
  deriving Repr

/-- Apply an operation; a reverting call leaves the storage unchanged. -/
def applyOp (s : TCState) : TCOp → TCState
  | .create nowT recipient ipfsCid releaseTime tokenURI keeperUrls =>
    match createCrate s nowT recipient ipfsCid releaseTime tokenURI keeperUrls with
    | .ok (s', _) => s'
    | .error _ => s
  | .release nowT sender tokenId =>
    match markAsReleased s nowT sender tokenId with
    | .ok s' => s'
    | .error _ => s
  | .transfer sender fromAddr toAddr tokenId =>
    match transferFrom s sender fromAddr toAddr tokenId with
    | .ok s' => s'
    | .error _ => s

/-- Every operation preserves existence and the stored `releaseTime` of an
existing token (only `createCrate` writes `crateInfo`, and only at the fresh
counter id, which cannot be an existing token). -/
theorem applyOp_preserves (s : TCState) (op : TCOp) (tokenId : Nat)
    (hex : s.owners tokenId ≠ 0) :
    (applyOp s op).owners tokenId ≠ 0 ∧
    ((applyOp s op).crateInfo tokenId).releaseTime =
      (s.crateInfo tokenId).releaseTime := by
  cases op with
  | create nowT recipient ipfsCid releaseTime tokenURI keeperUrls =>
    unfold applyOp createCrate
    by_cases h1 : recipient = 0
    · simp [h1, hex]
    by_cases h2 : nowT < releaseTime
    case neg => simp [h1, h2, hex]
    by_cases h3 : ipfsCid = ""
    · simp [h1, h2, h3, hex]
    by_cases h4 : keeperUrls = []
    · simp [h1, h2, h3, h4, hex]
    by_cases h5 : s.owners s.tokenIdCounter ≠ 0
    · simp [h1, h2, h3, h4, h5, hex]
    · have hne : tokenId ≠ s.tokenIdCounter := by
        intro h; rw [h] at hex; exact hex (by simpa using h5)
      simp [h1, h2, h3, h4, h5, hne, hex]
  | release nowT sender tid =>
    unfold applyOp markAsReleased
    by_cases h1 : s.owners tid = 0
    · simp [h1, hex]
    by_cases h2 : s.owners tid ≠ sender
    · simp [h1, h2, hex]
    by_cases h3 : (s.crateInfo tid).releaseTime ≤ nowT
    case neg => simp [h1, h2, h3, hex]
    by_cases h4 : (s.crateInfo tid).released
    · simp [h1, h2, h3, h4, hex]
    · by_cases h5 : tokenId = tid
      · subst h5; simp [h1, h2, h3, h4, hex]
      · simp [h1, h2, h3, h4, h5, hex]
  | transfer sender fromAddr toAddr tid =>
    unfold applyOp transferFrom
    by_cases h1 : s.owners tid = 0
    · simp [h1, hex]
    by_cases h2 : s.owners tid ≠ fromAddr
    · simp [h1, h2, hex]
    by_cases h3 : toAddr = 0
    · simp [h1, h2, h3, hex]
    by_cases h4 : s.owners tid ≠ sender
    · simp [h1, h2, h3, h4, hex]
    · by_cases h5 : tokenId = tid
      · subst h5; simp [h1, h2, h3, h4, hex, h3]
      · simp [h1, h2, h3, h4, h5, hex]

/-- What a successful `createCrate` establishes about the new token. -/
theorem createCrate_ok_spec (s : TCState) (nowT recipient : Nat)
    (ipfsCid : String) (releaseTime : Nat) (tokenURI : String)
    (keeperUrls : List String) (s' : TCState) (tokenId : Nat)
    (h : createCrate s nowT recipient ipfsCid releaseTime tokenURI keeperUrls =
      .ok (s', tokenId)) :
    s'.owners tokenId ≠ 0 ∧
    (s'.crateInfo tokenId).releaseTime = releaseTime ∧
    (s'.crateInfo tokenId).released = false ∧
    (s'.crateInfo tokenId).createdAt = nowT ∧
    nowT < releaseTime := by
  unfold createCrate at h
  by_cases h1 : recipient = 0
  · simp [h1] at h
  by_cases h2 : nowT < releaseTime
  case neg => simp [h1, h2] at h
  by_cases h3 : ipfsCid = ""
  · simp [h1, h2, h3] at h
  by_cases h4 : keeperUrls = []
  · simp [h1, h2, h3, h4] at h
  by_cases h5 : s.owners s.tokenIdCounter ≠ 0
  · simp [h1, h2, h3, h4, h5] at h
  simp only [h1, if_false, h2, not_true, if_false, if_neg, h3, h4, h5,
    ite_false, ite_true, if_true] at h
  simp only [Except.ok.injEq, Prod.mk.injEq] at h
  obtain ⟨rfl, rfl⟩ := h
  simp [h1, h2]

/-- Existence and `releaseTime` of an existing token survive any sequence of
contract operations. -/
theorem foldl_applyOp_preserves (ops : List TCOp) :
    ∀ (s : TCState) (tokenId : Nat), s.owners tokenId ≠ 0 →
      ((ops.foldl applyOp s).owners tokenId ≠ 0 ∧
        ((ops.foldl applyOp s).crateInfo tokenId).releaseTime =
          (s.crateInfo tokenId).releaseTime) := by
  induction ops with
  | nil => intro s tokenId hex; exact ⟨hex, rfl⟩
  | cons op ops ih =>
    intro s tokenId hex
    have h1 := applyOp_preserves s op tokenId hex
    have h2 := ih (applyOp s op) tokenId h1.1
    exact ⟨h2.1, h2.2.trans h1.2⟩

/-- C4: for a token minted by `createCrate` with release time `releaseTime`,
after any sequence of further contract operations, `isReleaseReady` evaluated
at the current timestamp `t` returns exactly `releaseTime ≤ t` — it is a pure
function of the current time and the `releaseTime` stored at creation, with
no cached approval. -/
theorem isReleaseReady_reflects_current_time (s : TCState) (nowT recipient : Nat)
    (ipfsCid : String) (releaseTime : Nat) (tokenURI : String)
    (keeperUrls : List String) (s' : TCState) (tokenId : Nat)
    (hcreate : createCrate s nowT recipient ipfsCid releaseTime tokenURI keeperUrls =
      .ok (s', tokenId))
    (ops : List TCOp) (t : Nat) :
    isReleaseReady (ops.foldl applyOp s') t tokenId =
      .ok (decide (releaseTime ≤ t)) := by
  have hc := createCrate_ok_spec s nowT recipient ipfsCid releaseTime tokenURI
    keeperUrls s' tokenId hcreate
  have hp := foldl_applyOp_preserves ops s' tokenId hc.1
  unfold isReleaseReady
  rw [if_neg hp.1, hp.2, hc.2.1]

/-- C4 witness: a crate created at time 5 with release time 10, after a
release attempt and an ownership transfer, is not ready at time 9 and ready
at time 10. -/
theorem isReleaseReady_reflects_current_time_witness :
    (isReleaseReady (([TCOp.release 7 1 0, TCOp.transfer 1 1 2 0].foldl applyOp)
        (match createCrate TCState.deployed 5 1 "QmCid" 10 "uri" ["u"] with
          | .ok (s, _) => s
          | .error _ => TCState.deployed)) 9 0 = .ok false) ∧
    (isReleaseReady (([TCOp.release 7 1 0, TCOp.transfer 1 1 2 0].foldl applyOp)
        (match createCrate TCState.deployed 5 1 "QmCid" 10 "uri" ["u"] with
          | .ok (s, _) => s
          | .error _ => TCState.deployed)) 10 0 = .ok true) :=
  ⟨isReleaseReady_reflects_current_time TCState.deployed 5 1 "QmCid" 10 "uri" ["u"]
      _ 0 rfl [TCOp.release 7 1 0, TCOp.transfer 1 1 2 0] 9,
   isReleaseReady_reflects_current_time TCState.deployed 5 1 "QmCid" 10 "uri" ["u"]
      _ 0 rfl [TCOp.release 7 1 0, TCOp.transfer 1 1 2 0] 10⟩

/-- No contract operation resets the `released` flag of an existing token. -/
theorem applyOp_released_mono (s : TCState) (op : TCOp) (tokenId : Nat)
    (hex : s.owners tokenId ≠ 0)
    (hrel : (s.crateInfo tokenId).released = true) :
    ((applyOp s op).crateInfo tokenId).released = true := by
  cases op with
  | create nowT recipient ipfsCid releaseTime tokenURI keeperUrls =>
    unfold applyOp createCrate
    by_cases h1 : recipient = 0
    · simp [h1, hrel]
    by_cases h2 : nowT < releaseTime
    case neg => simp [h1, h2, hrel]
    by_cases h3 : ipfsCid = ""
    · simp [h1, h2, h3, hrel]
    by_cases h4 : keeperUrls = []
    · simp [h1, h2, h3, h4, hrel]
    by_cases h5 : s.owners s.tokenIdCounter ≠ 0
    · simp [h1, h2, h3, h4, h5, hrel]
    · have hne : tokenId ≠ s.tokenIdCounter := by
        intro h; rw [h] at hex; exact hex (by simpa using h5)
      simp [h1, h2, h3, h4, h5, hne, hrel]
  | release nowT sender tid =>
    unfold applyOp markAsReleased
    by_cases h1 : s.owners tid = 0
    · simp [h1, hrel]
    by_cases h2 : s.owners tid ≠ sender
    · simp [h1, h2, hrel]
    by_cases h3 : (s.crateInfo tid).releaseTime ≤ nowT
    case neg => simp [h1, h2, h3, hrel]
    by_cases h4 : (s.crateInfo tid).released
    · simp [h1, h2, h3, h4, hrel]
    · by_cases h5 : tokenId = tid
      · subst h5; simp [hrel] at h4
      · simp [h1, h2, h3, h4, h5, hrel]
  | transfer sender fromAddr toAddr tid =>
    unfold applyOp transferFrom
    by_cases h1 : s.owners tid = 0
    · simp [h1, hrel]
    by_cases h2 : s.owners tid ≠ fromAddr
    · simp [h1, h2, hrel]
    by_cases h3 : toAddr = 0
    · simp [h1, h2, h3, hrel]
    by_cases h4 : s.owners tid ≠ sender
    · simp [h1, h2, h3, h4, hrel]
    · simp [h1, h2, h3, h4, hrel]

/-- C10: a crate's `released` flag is `false` at creation; `markAsReleased`
succeeds exactly when the token exists, the caller is its current owner, the
release time has passed and the crate is not yet released, in which case it
sets the flag to `true`; and no contract operation ever resets the flag of an
existing token back to `false`. -/
theorem released_flag_lifecycle :
    (∀ (s : TCState) (nowT recipient : Nat) (ipfsCid : String)
        (releaseTime : Nat) (tokenURI : String) (keeperUrls : List String)
        (s' : TCState) (tokenId : Nat),
      createCrate s nowT recipient ipfsCid releaseTime tokenURI keeperUrls =
        .ok (s', tokenId) →
      (s'.crateInfo tokenId).released = false) ∧
    (∀ (s : TCState) (nowT sender tokenId : Nat),
      (markAsReleased s nowT sender tokenId).isOk = true ↔
        (s.owners tokenId ≠ 0 ∧ s.owners tokenId = sender ∧
         (s.crateInfo tokenId).releaseTime ≤ nowT ∧
         (s.crateInfo tokenId).released = false)) ∧
    (∀ (s : TCState) (nowT sender tokenId : Nat) (s'' : TCState),
      markAsReleased s nowT sender tokenId = .ok s'' →
      (s''.crateInfo tokenId).released = true) ∧
    (∀ (s : TCState) (op : TCOp) (tokenId : Nat),
      s.owners tokenId ≠ 0 →
      (s.crateInfo tokenId).released = true →
      ((applyOp s op).crateInfo tokenId).released = true) := by
  refine ⟨?_, ?_, ?_, applyOp_released_mono⟩
  · intro s nowT recipient ipfsCid releaseTime tokenURI keeperUrls s' tokenId h
    exact (createCrate_ok_spec s nowT recipient ipfsCid releaseTime tokenURI
      keeperUrls s' tokenId h).2.2.1
  · intro s nowT sender tokenId
    unfold markAsReleased
    by_cases h1 : s.owners tokenId = 0
    · simp [h1, Except.isOk, Except.toBool]
    by_cases h2 : s.owners tokenId ≠ sender
    · simp [h1, h2, Except.isOk, Except.toBool]
    by_cases h3 : (s.crateInfo tokenId).releaseTime ≤ nowT
    case neg => simp [h1, h2, h3, Except.isOk, Except.toBool]
    by_cases h4 : (s.crateInfo tokenId).released
    · simp [h1, h2, h3, h4, Except.isOk, Except.toBool]
    · simp [h1, h2, h3, h4, Except.isOk, Except.toBool]
      omega
  · intro s nowT sender tokenId s'' h
    unfold markAsReleased at h
    by_cases h1 : s.owners tokenId = 0
    · simp [h1] at h
    by_cases h2 : s.owners tokenId ≠ sender
    · simp [h1, h2] at h
    by_cases h3 : (s.crateInfo tokenId).releaseTime ≤ nowT
    case neg => simp [h1, h2, h3] at h
    by_cases h4 : (s.crateInfo tokenId).released
    · simp [h1, h2, h3, h4] at h
    · rw [if_neg h1, if_neg h2, if_neg (by simpa using h3), if_neg h4] at h
      cases h
      simp

/-- C10 witness: on a freshly created crate the flag is `false`;
`markAsReleased` by the owner at time 10 succeeds; after it the flag is
`true`, and a subsequent transfer leaves it `true`. -/
theorem released_flag_lifecycle_witness :
    (((match createCrate TCState.deployed 5 1 "QmCid" 10 "uri" ["u"] with
        | .ok (s, _) => s
        | .error _ => TCState.deployed).crateInfo 0).released = false) ∧
    ((markAsReleased (match createCrate TCState.deployed 5 1 "QmCid" 10 "uri" ["u"] with
        | .ok (s, _) => s
        | .error _ => TCState.deployed) 10 1 0).isOk = true) ∧
    (((applyOp (applyOp (match createCrate TCState.deployed 5 1 "QmCid" 10 "uri" ["u"] with
        | .ok (s, _) => s
        | .error _ => TCState.deployed) (TCOp.release 10 1 0))
          (TCOp.transfer 1 1 2 0)).crateInfo 0).released = true) :=
  ⟨released_flag_lifecycle.1 TCState.deployed 5 1 "QmCid" 10 "uri" ["u"] _ 0 rfl,
   (released_flag_lifecycle.2.1 _ 10 1 0).mpr
     ⟨by decide, by decide, by decide, by decide⟩,
   released_flag_lifecycle.2.2.2 _ (TCOp.transfer 1 1 2 0) 0
     (by decide) (by decide)⟩

/-! ## Cipher (`encryptData` / `decryptData`, `server.js` 34–58)

`encryptData` runs `aes-256-cbc` over the buffer with a fresh 16-byte IV and
returns `IV ++ ciphertext`; `decryptData` splits the first 16 bytes back off
as the IV and deciphers the rest.  `aes-256-cbc` fixes CBC chaining over
16-byte blocks with PKCS#7 padding; the AES-256 block transformation itself
lives in Node's `crypto` module, so (modelled from the spec: a keyed,
invertible block transformation) it is abstracted as a `BlockCipher` — the
permutation AES applies to one block under one fixed key.  Bytes are `Nat`s;
the random IV is an explicit argument. -/

/-- The keyed AES-256 block permutation and its inverse (one value of this
structure per 32-byte key). -/
structure BlockCipher where
  enc : List Nat → List Nat
  dec : List Nat → List Nat
  enc_length : ∀ b, (enc b).length = b.length
  dec_enc : ∀ b, dec (enc b) = b

/-- Bytewise XOR (the CBC chaining operation). -/
def xorBytes (a b : List Nat) : List Nat :=
  List.zipWith Nat.xor a b

/-- PKCS#7 padding to a multiple of 16 bytes: append `n = 16 - len % 16`
copies of the byte `n` (always at least one byte). -/
def pkcs7pad (m : List Nat) : List Nat :=
  m ++ List.replicate (16 - m.length % 16) (16 - m.length % 16)

/-- PKCS#7 unpadding with full validation (as OpenSSL performs on
`decipher.final()`): the last byte `n` must lie in `[1,16]` and the last `n`
bytes must all equal `n`; otherwise the decryption fails. -/
def pkcs7unpad (m : List Nat) : Option (List Nat) :=
  match m.getLast? with
  | none => none
  | some n =>
    if 1 ≤ n ∧ n ≤ 16 ∧ n ≤ m.length ∧ (m.drop (m.length - n)).all (fun x => x = n)
    then some (m.take (m.length - n))
    else none

/-- Split a byte string into consecutive 16-byte blocks. -/
def toBlocks (l : List Nat) : List (List Nat) :=
  if h : l = [] then []
  else l.take 16 :: toBlocks (l.drop 16)
  termination_by l.length
  decreasing_by
    simp only [List.length_drop]
    have : 0 < l.length := List.length_pos.mpr h
    omega

/-- CBC encryption of a block sequence: each plaintext block is XORed with
the previous ciphertext block (initially the IV) before the block cipher. -/
def cbcEncBlocks (C : BlockCipher) (prev : List Nat) : List (List Nat) → List (List Nat)
  | [] => []
  | p :: ps =>
    let c := C.enc (xorBytes p prev)
    c :: cbcEncBlocks C c ps

/-- CBC decryption of a block sequence. -/
def cbcDecBlocks (C : BlockCipher) (prev : List Nat) : List (List Nat) → List (List Nat)
  | [] => []
  | c :: cs => xorBytes (C.dec c) prev :: cbcDecBlocks C c cs

/-- `encryptData` (`server.js` 34–44): CBC-encrypt the PKCS#7-padded buffer
under the key's block cipher and return `IV ++ encrypted`. -/
def encryptData (C : BlockCipher) (buffer iv : List Nat) : List Nat :=
  iv ++ (cbcEncBlocks C iv (toBlocks (pkcs7pad buffer))).flatten

/-- `decryptData` (`server.js` 46–58): split off the first 16 bytes as the
IV, CBC-decrypt the remainder and strip the padding (`none` models the
`createDecipheriv`/`final` throw on bad input). -/
def decryptData (C : BlockCipher) (blob : List Nat) : Option (List Nat) :=
  pkcs7unpad ((cbcDecBlocks C (blob.take 16) (toBlocks (blob.drop 16))).flatten)

/-- XORing twice with the same equal-length mask is the identity. -/
theorem xorBytes_xorBytes_cancel :
    ∀ (p q : List Nat), p.length = q.length → xorBytes (xorBytes p q) q = p := by
  intro p
  induction p with
  | nil => intro q h; simp [xorBytes]
  | cons x p ih =>
    intro q h
    cases q with
    | nil => simp at h
    | cons y q =>
      simp only [xorBytes, List.zipWith_cons_cons, List.cons.injEq] at ih ⊢
      exact ⟨Nat.xor_cancel_right y x, ih q (by simpa using h)⟩

/-- The padded message has positive length divisible by 16. -/
theorem pkcs7pad_length (m : List Nat) :
    (pkcs7pad m).length = m.length + (16 - m.length % 16) ∧
    16 ∣ (pkcs7pad m).length ∧ pkcs7pad m ≠ [] := by
  have hmod : m.length % 16 < 16 := Nat.mod_lt _ (by omega)
  refine ⟨by simp [pkcs7pad], ?_, ?_⟩
  · simp only [pkcs7pad, List.length_append, List.length_replicate]
    have : m.length % 16 + 16 * (m.length / 16) = m.length := by
      rw [Nat.mod_add_div]
    refine ⟨m.length / 16 + 1, by omega⟩
  · simp only [pkcs7pad, ne_eq, List.append_eq_nil]
    intro hc
    have := hc.2
    rw [List.replicate_eq_nil] at this
    omega

/-- Flattening the 16-byte blocks of a byte string gives the string back. -/
theorem toBlocks_flatten (l : List Nat) : (toBlocks l).flatten = l := by
  by_cases h : l = []
  · rw [toBlocks, dif_pos h]; simp [h]
  · rw [toBlocks, dif_neg h]
    simp only [List.flatten_cons]
    rw [toBlocks_flatten (l.drop 16)]
    exact List.take_append_drop 16 l
  termination_by l.length
  decreasing_by
    simp only [List.length_drop]
    have : 0 < l.length := List.length_pos.mpr h
    omega

/-- When the length is a multiple of 16, every block is 16 bytes. -/
theorem toBlocks_block_length (l : List Nat) (hdvd : 16 ∣ l.length) :
    ∀ b ∈ toBlocks l, b.length = 16 := by
  intro b hb
  by_cases h : l = []
  · rw [toBlocks, dif_pos h] at hb; simp at hb
  · rw [toBlocks, dif_neg h] at hb
    have hpos : 0 < l.length := List.length_pos.mpr h
    have h16 : 16 ≤ l.length := Nat.le_of_dvd hpos hdvd
    rcases List.mem_cons.mp hb with hb | hb
    · subst hb; simp [List.length_take]; omega
    · obtain ⟨k, hk⟩ := hdvd
      exact toBlocks_block_length (l.drop 16)
        (by simp only [List.length_drop]; exact ⟨k - 1, by omega⟩) b hb
  termination_by l.length
  decreasing_by
    simp only [List.length_drop]
    omega

/-- Re-chunking a flattened sequence of 16-byte blocks gives the blocks
back. -/
theorem toBlocks_flatten_of_blocks :
    ∀ cs : List (List Nat), (∀ c ∈ cs, c.length = 16) →
      toBlocks cs.flatten = cs := by
  intro cs
  induction cs with
  | nil => intro _; simp [toBlocks]
  | cons c cs ih =>
    intro hc
    have hclen : c.length = 16 := hc c (by simp)
    have hcne : c ++ cs.flatten ≠ [] := by
      intro hcontra
      have := List.append_eq_nil.mp hcontra
      rw [this.1] at hclen
      simp at hclen
    simp only [List.flatten_cons]
    rw [toBlocks, dif_neg hcne]
    have ht : (c ++ cs.flatten).take 16 = c := by
      rw [← hclen, List.take_left]
    have hd : (c ++ cs.flatten).drop 16 = cs.flatten := by
      rw [← hclen, List.drop_left]
    rw [ht, hd, ih (fun x hx => hc x (by simp [hx]))]

/-- CBC ciphertext blocks are 16 bytes when the plaintext blocks and the IV
are. -/
theorem cbcEncBlocks_block_length (C : BlockCipher) :
    ∀ (ps : List (List Nat)) (prev : List Nat), prev.length = 16 →
      (∀ p ∈ ps, p.length = 16) →
      ∀ c ∈ cbcEncBlocks C prev ps, c.length = 16 := by
  intro ps
  induction ps with
  | nil => intro prev _ _ c hc; simp [cbcEncBlocks] at hc
  | cons p ps ih =>
    intro prev hprev hps c hc
    have hp : p.length = 16 := hps p (by simp)
    have hhead : (C.enc (xorBytes p prev)).length = 16 := by
      rw [C.enc_length]
      simp [xorBytes, List.length_zipWith, hp, hprev]
    simp only [cbcEncBlocks] at hc
    rcases List.mem_cons.mp hc with hc | hc
    · subst hc; exact hhead
    · exact ih (C.enc (xorBytes p prev)) hhead (fun x hx => hps x (by simp [hx])) c hc

/-- CBC decryption inverts CBC encryption blockwise. -/
theorem cbcDecBlocks_cbcEncBlocks (C : BlockCipher) :
    ∀ (ps : List (List Nat)) (prev : List Nat), prev.length = 16 →
      (∀ p ∈ ps, p.length = 16) →
      cbcDecBlocks C prev (cbcEncBlocks C prev ps) = ps := by
  intro ps
  induction ps with
  | nil => intro prev _ _; simp [cbcEncBlocks, cbcDecBlocks]
  | cons p ps ih =>
    intro prev hprev hps
    have hp : p.length = 16 := hps p (by simp)
    have hhead : (C.enc (xorBytes p prev)).length = 16 := by
      rw [C.enc_length]
      simp [xorBytes, List.length_zipWith, hp, hprev]
    simp only [cbcEncBlocks, cbcDecBlocks, List.cons.injEq]
    constructor
    · rw [C.dec_enc]
      exact xorBytes_xorBytes_cancel p prev (by omega)
    · exact ih (C.enc (xorBytes p prev)) hhead (fun x hx => hps x (by simp [hx]))

/-- The last element of a nonempty constant list. -/
theorem getLast?_replicate_pos : ∀ (n a : Nat), 0 < n →
    (List.replicate n a).getLast? = some a := by
  intro n
  induction n with
  | zero => intro a h; omega
  | succ k ih =>
    intro a _
    cases k with
    | zero => simp
    | succ k2 =>
      rw [List.replicate_succ, List.replicate_succ, List.getLast?_cons_cons,
        ← List.replicate_succ]
      exact ih a (by omega)

/-- Unpadding inverts padding. -/
theorem pkcs7unpad_pkcs7pad (m : List Nat) :
    pkcs7unpad (pkcs7pad m) = some m := by
  have hmod : m.length % 16 < 16 := Nat.mod_lt _ (by omega)
  set n := 16 - m.length % 16 with hn
  have hn1 : 1 ≤ n := by omega
  have hn16 : n ≤ 16 := by omega
  have hrep : List.replicate n n ≠ ([] : List Nat) := by
    rw [ne_eq, List.replicate_eq_nil]; omega
  have hlast : (pkcs7pad m).getLast? = some n := by
    rw [pkcs7pad, ← hn, List.getLast?_append_of_ne_nil _ hrep]
    exact getLast?_replicate_pos n n (by omega)
  have hlen : (pkcs7pad m).length = m.length + n := by
    simp [pkcs7pad, ← hn]
  have hdrop : (pkcs7pad m).drop ((pkcs7pad m).length - n) = List.replicate n n := by
    rw [hlen, pkcs7pad, ← hn]
    have h2 : m.length + n - n = m.length := by omega
    rw [h2, List.drop_left]
  have htake : (pkcs7pad m).take ((pkcs7pad m).length - n) = m := by
    rw [hlen, pkcs7pad, ← hn]
    have h2 : m.length + n - n = m.length := by omega
    rw [h2, List.take_left]
  have hunfold : pkcs7unpad (pkcs7pad m) =
      if 1 ≤ n ∧ n ≤ 16 ∧ n ≤ (pkcs7pad m).length ∧
          ((pkcs7pad m).drop ((pkcs7pad m).length - n)).all (fun x => x = n)
      then some ((pkcs7pad m).take ((pkcs7pad m).length - n))
      else none := by
    unfold pkcs7unpad
    rw [hlast]
  rw [hunfold, if_pos, htake]
  refine ⟨hn1, hn16, by omega, ?_⟩
  rw [hdrop]
  simp [List.all_eq_true, List.mem_replicate]

/-- C2: decrypting the output of `encryptData` with the same key's block
cipher (and the IV carried in the blob) returns the original plaintext
buffer. -/
theorem decryptData_encryptData (C : BlockCipher) (buffer iv : List Nat)
    (hiv : iv.length = 16) :
    decryptData C (encryptData C buffer iv) = some buffer := by
  obtain ⟨hplen, hpdvd, hpne⟩ := pkcs7pad_length buffer
  have hblocks : ∀ b ∈ toBlocks (pkcs7pad buffer), b.length = 16 :=
    toBlocks_block_length _ hpdvd
  unfold encryptData decryptData
  have htake : (iv ++ (cbcEncBlocks C iv (toBlocks (pkcs7pad buffer))).flatten).take 16 = iv := by
    rw [← hiv, List.take_left]
  have hdrop : (iv ++ (cbcEncBlocks C iv (toBlocks (pkcs7pad buffer))).flatten).drop 16 =
      (cbcEncBlocks C iv (toBlocks (pkcs7pad buffer))).flatten := by
    rw [← hiv, List.drop_left]
  rw [htake, hdrop,
    toBlocks_flatten_of_blocks _ (cbcEncBlocks_block_length C _ iv hiv hblocks),
    cbcDecBlocks_cbcEncBlocks C _ iv hiv hblocks,
    toBlocks_flatten, pkcs7unpad_pkcs7pad]

/-- The identity block cipher, standing in for AES under one key in the
witness. -/
def idBlockCipher : BlockCipher :=
  ⟨fun b => b, fun b => b, fun _ => rfl, fun _ => rfl⟩

/-- C2 witness: a concrete 3-byte plaintext with a concrete 16-byte IV
round-trips. -/
theorem decryptData_encryptData_witness :
    decryptData idBlockCipher
      (encryptData idBlockCipher [10, 20, 30]
        [0, 1, 2, 3, 4, 5, 6, 7, 8, 9, 10, 11, 12, 13, 14, 15]) = some [10, 20, 30] :=
  decryptData_encryptData idBlockCipher [10, 20, 30]
    [0, 1, 2, 3, 4, 5, 6, 7, 8, 9, 10, 11, 12, 13, 14, 15] (by decide)

end TimeCrate
